import Mathlib

/-!
# Product-catalog backend (`src/server.js`)

A shallow embedding of the Express service in `src/server.js`: the login and
token-verification endpoints, the `authenticateToken` middleware, the zod
product schema and the four product endpoints over one document collection.

The handlers are translated line by line.  What the handlers call but the
repository does not contain is modelled as follows.

* `jsonwebtoken` — `jwt.sign` and `jwt.verify` are fields of `Env`
  (`jwtSign`, `jwtVerify`), with the signing secret and the 24h lifetime
  fixed inside them; both read the clock, which is passed explicitly.
* `zod` — `productSchema.parse` is modelled by `productSchema.parse`:
  an object schema in the default "strip" mode with one check per field.
  Syntactic URL validity (`new URL(s)` succeeds) is the field `Env.isUrl`.
* `bson` — `ObjectId.isValid` and `new ObjectId(id)` on a string: a string
  of exactly 24 hexadecimal digits, read case-insensitively.
* `mongodb` — the collection is a list of documents, each with an `_id` and
  its other top-level fields; `findOne`, `find().sort()`, `insertOne`,
  `updateOne` with `$set` and `deleteOne` act on that list.  The unique
  index on `_id` and the immutability of `_id` are modelled, an empty `$set`
  is a no-op (as from MongoDB 5.0), and connection faults are not modelled.  Field names that the store reads as path expressions
  (empty, containing `.` or starting with `$`) are outside the model: the
  statements about updates assume plain field names.
-/

namespace Backend

/-! ## Values -/

mutual
/-- A JavaScript/BSON value: what a parsed JSON body holds, plus the two
non-JSON kinds the service stores (`Date` and `ObjectId`). -/
inductive Value where
  | null
  | bool (b : Bool)
  | num (q : ℚ)
  | str (s : String)
  | date (ms : Nat)
  | oid (n : Nat)
  | arr (items : ValueList)
  | obj (fields : FieldList)
/-- The items of an array value. -/
inductive ValueList where
  | nil
  | cons (head : Value) (tail : ValueList)
/-- The key/value pairs of an object value, in order. -/
inductive FieldList where
  | nil
  | cons (key : String) (value : Value) (tail : FieldList)
end

deriving instance DecidableEq for Value

/-- A top-level object: an association list from field names to values. -/
abbrev Obj := List (String × Value)

/-- The pairs of an object value as an association list. -/
def FieldList.toList : FieldList → Obj
  | .nil => []
  | .cons k v rest => (k, v) :: rest.toList

/-- Property read `v[k]`: `none` is JavaScript's `undefined`.  Only objects
carry the named properties the service reads. -/
def Value.get (v : Value) (k : String) : Option Value :=
  match v with
  | .obj fields => fields.toList.lookup k
  | _ => none

/-- The fields of a value when it is an object. -/
def Value.toObj (v : Value) : Option Obj :=
  match v with
  | .obj fields => some fields.toList
  | _ => none

/-! ## `bson`: ObjectId -/

/-- An ObjectId, as the number its 24 hexadecimal digits denote. -/
structure ObjectId where
  value : Nat
deriving DecidableEq

/-- The value of one hexadecimal digit, either case. -/
def hexDigit (c : Char) : Option Nat :=
  if 48 ≤ c.toNat ∧ c.toNat ≤ 57 then some (c.toNat - 48)
  else if 97 ≤ c.toNat ∧ c.toNat ≤ 102 then some (c.toNat - 87)
  else if 65 ≤ c.toNat ∧ c.toNat ≤ 70 then some (c.toNat - 55)
  else none

/-- Reads a run of hexadecimal digits, most significant first. -/
def hexValue (acc : Nat) : List Char → Option Nat
  | [] => some acc
  | c :: cs =>
    match hexDigit c with
    | some d => hexValue (16 * acc + d) cs
    | none => none

/-- The constructor `new ObjectId(id)` on a string: `none` when it throws. -/
def ObjectId.ofString (id : String) : Option ObjectId :=
  if id.data.length = 24 then (hexValue 0 id.data).map ObjectId.mk else none

/-- The check `ObjectId.isValid(id)` on a string. -/
def ObjectId.isValid (id : String) : Bool :=
  (ObjectId.ofString id).isSome

/-! ## `mongodb`: the products collection -/

/-- A stored document: its `_id` and its other top-level fields. -/
structure Doc where
  _id : ObjectId
  fields : Obj
deriving DecidableEq

/-- The state of `db.collection('products')`. -/
abbrev Collection := List Doc

/-- The `_id`s of a collection, in order. -/
def ids (db : Collection) : List ObjectId :=
  db.map Doc._id

/-- The store keeps `_id` unique. -/
def UniqueIds (db : Collection) : Prop :=
  (ids db).Nodup

instance (db : Collection) : Decidable (UniqueIds db) :=
  inferInstanceAs (Decidable (ids db).Nodup)

/-- A rejection by the store, which the driver raises as an exception. -/
inductive StoreError where
  | duplicateKey
  | failedToParse
  | immutableField
deriving DecidableEq

/-- `findOne({ _id })`: the first document with that `_id`. -/
def findOne (db : Collection) (id : ObjectId) : Option Doc :=
  db.find? (fun d => d._id = id)

/-- The value a document is sorted by under `{ createdAt: -1 }`: a missing
field counts as null. -/
def Doc.createdAt (d : Doc) : Value :=
  (d.fields.lookup "createdAt").getD .null

/-- The rank of a value's type in the store's comparison order. -/
def bsonRank : Value → Nat
  | .null => 1
  | .num _ => 2
  | .str _ => 3
  | .obj _ => 4
  | .arr _ => 5
  | .oid _ => 7
  | .bool _ => 8
  | .date _ => 9

/-- The store's comparison order on values: by type rank, then by value
inside one scalar type.  Two objects, or two arrays, are left unordered
among themselves. -/
def bsonLe (a b : Value) : Bool :=
  match a, b with
  | .num x, .num y => decide (x ≤ y)
  | .str x, .str y => decide (x ≤ y)
  | .bool x, .bool y => decide (x ≤ y)
  | .date x, .date y => decide (x ≤ y)
  | .oid x, .oid y => decide (x ≤ y)
  | a, b => decide (bsonRank a ≤ bsonRank b)

/-- The order of `sort({ createdAt: -1 })`: `a` may come before `b`. -/
def createdAtDesc (a b : Doc) : Prop :=
  bsonLe b.createdAt a.createdAt = true

instance : DecidableRel createdAtDesc :=
  fun a b => inferInstanceAs (Decidable (bsonLe b.createdAt a.createdAt = true))

/-- `find().sort({ createdAt: -1 }).toArray()`. -/
def findSorted (db : Collection) : List Doc :=
  db.insertionSort createdAtDesc

/-- `insertOne(doc)`: appends the document; a second document with the same
`_id` is rejected by the unique index. -/
def insertOne (db : Collection) (doc : Doc) : Except StoreError Collection :=
  if doc._id ∈ ids db then .error .duplicateKey else .ok (db ++ [doc])

/-- Writes one field: replaces the value of an existing key in place, or
appends the key. -/
def setField (k : String) (v : Value) : Obj → Obj
  | [] => [(k, v)]
  | (k', v') :: rest =>
    if k' = k then (k, v) :: rest else (k', v') :: setField k v rest

/-- Applies `$set` with the given fields to the fields of a document; where
a key is given twice the first one is the value it has in the update (as
for `Value.get`). -/
def setFields (upd : Obj) (fields : Obj) : Obj :=
  upd.foldr (fun kv acc => setField kv.1 kv.2 acc) fields

/-- Applies `$set` to one matched document.  Writing `_id` is rejected
unless it writes the value the document already has. -/
def applySet (upd : Obj) (d : Doc) : Except StoreError Doc :=
  match upd.lookup "_id" with
  | some v =>
    if v = .oid d._id.value then
      .ok ⟨d._id, setFields (upd.filter (fun kv => kv.1 ≠ "_id")) d.fields⟩
    else .error .immutableField
  | none => .ok ⟨d._id, setFields upd d.fields⟩

/-- Replaces the first document with the given `_id`. -/
def replaceOne (id : ObjectId) (d' : Doc) : Collection → Collection
  | [] => []
  | d :: rest => if d._id = id then d' :: rest else d :: replaceOne id d' rest

/-- The result of `updateOne`: the new collection and `modifiedCount`. -/
structure UpdateResult where
  db : Collection
  modifiedCount : Nat

/-- `updateOne({ _id }, { $set: updateData })`.  The operand of `$set` must
be a document; a matched document that the update leaves identical is not
counted as modified. -/
def updateOne (db : Collection) (id : ObjectId) (updateData : Value) :
    Except StoreError UpdateResult :=
  match updateData.toObj with
  | none => .error .failedToParse
  | some upd =>
    match findOne db id with
    | none => .ok ⟨db, 0⟩
    | some d =>
      match applySet upd d with
      | .error e => .error e
      | .ok d' => if d' = d then .ok ⟨db, 0⟩ else .ok ⟨replaceOne id d' db, 1⟩

/-- The result of `deleteOne`: the new collection and `deletedCount`. -/
structure DeleteResult where
  db : Collection
  deletedCount : Nat

/-- Removes the first document with the given `_id`. -/
def eraseOne (id : ObjectId) : Collection → Collection
  | [] => []
  | d :: rest => if d._id = id then rest else d :: eraseOne id rest

/-- `deleteOne({ _id })`. -/
def deleteOne (db : Collection) (id : ObjectId) : DeleteResult :=
  match findOne db id with
  | none => ⟨db, 0⟩
  | some _ => ⟨eraseOne id db, 1⟩

/-! ## `zod`: the product schema -/

/-- The issue codes the product schema can raise. -/
inductive ZodIssueCode where
  | invalid_type
  | too_small
  | invalid_string
deriving DecidableEq

/-- One entry of `ZodError.errors`: what failed and at which path. -/
structure ZodIssue where
  code : ZodIssueCode
  path : List String
deriving DecidableEq

/-- The check `z.string().min(1)` on the value found at `key`. -/
def zNonEmptyString (key : String) (v : Option Value) : Except ZodIssue Value :=
  match v with
  | some (.str s) => if 1 ≤ s.length then .ok (.str s) else .error ⟨.too_small, [key]⟩
  | _ => .error ⟨.invalid_type, [key]⟩

/-- The check `z.number().positive()` on the value found at `key`. -/
def zPositiveNumber (key : String) (v : Option Value) : Except ZodIssue Value :=
  match v with
  | some (.num q) => if 0 < q then .ok (.num q) else .error ⟨.too_small, [key]⟩
  | _ => .error ⟨.invalid_type, [key]⟩

/-- The check `z.string().url()` on the value found at `key`. -/
def zUrl (isUrl : String → Bool) (key : String) (v : Option Value) : Except ZodIssue Value :=
  match v with
  | some (.str s) => if isUrl s then .ok (.str s) else .error ⟨.invalid_string, [key]⟩
  | _ => .error ⟨.invalid_type, [key]⟩

/-- The issue of a field check, if it raised one. -/
def issueOf (r : Except ZodIssue Value) : List ZodIssue :=
  match r with
  | .ok _ => []
  | .error e => [e]

/-- The call `productSchema.parse(body)`: the issues when it throws a
`ZodError`, else the parsed object, which holds the four declared keys only. -/
def productSchema.parse (isUrl : String → Bool) (body : Value) :
    Except (List ZodIssue) Obj :=
  match body with
  | .obj _ =>
    match zNonEmptyString "title" (body.get "title"),
          zPositiveNumber "price" (body.get "price"),
          zUrl isUrl "imageUrl" (body.get "imageUrl"),
          zUrl isUrl "amazonUrl" (body.get "amazonUrl") with
    | .ok title, .ok price, .ok imageUrl, .ok amazonUrl =>
      .ok [("title", title), ("price", price), ("imageUrl", imageUrl), ("amazonUrl", amazonUrl)]
    | t, p, i, a => .error (issueOf t ++ issueOf p ++ issueOf i ++ issueOf a)
  | _ => .error [⟨.invalid_type, []⟩]

/-! ## The service -/

/-- What the process is configured with: the admin credentials from the
environment, `jsonwebtoken` under `JWT_SECRET`, and the URL parser. -/
structure Env where
  ADMIN_USERNAME : String
  ADMIN_PASSWORD : String
  /-- The call `jwt.sign({ username }, JWT_SECRET, { expiresIn: '24h' })` at a given time. -/
  jwtSign : String → Nat → String
  /-- The call `jwt.verify(token, JWT_SECRET, cb)` at a given time: the decoded
  payload, or `none` when `cb` receives an error. -/
  jwtVerify : String → Nat → Option Value
  /-- Whether `new URL(s)` succeeds. -/
  isUrl : String → Bool

/-- The parts of an incoming request the handlers read, and `req.user`. -/
structure Req where
  /-- The header `req.headers['authorization']`. -/
  authorization : Option String
  /-- The parsed `req.body`. -/
  body : Value
  /-- The route parameter `req.params.id`. -/
  paramsId : String
  /-- The query parameter `req.query.id`. -/
  queryId : Option String
  /-- The property `req.user`, unset on arrival. -/
  user : Option Value

/-- What one request reads from outside the process while it is handled. -/
structure Ambient where
  /-- The clock `jsonwebtoken` reads. -/
  now : Nat
  /-- The first `new Date()` of the create handler. -/
  createdDate : Nat
  /-- The second `new Date()` of the create handler. -/
  updatedDate : Nat
  /-- The `_id` the driver generates for an inserted document. -/
  generatedId : ObjectId

/-- The payload of a response. -/
inductive Body where
  /-- An empty body, from `res.send()`. -/
  | empty
  /-- The body `{ message }`. -/
  | message (text : String)
  /-- The body `{ token }`. -/
  | token (jwt : String)
  /-- The body `{ valid: true }`. -/
  | valid
  /-- One product document. -/
  | product (doc : Doc)
  /-- An array of product documents. -/
  | products (docs : List Doc)
  /-- The result of `insertOne`: `{ acknowledged: true, insertedId }`. -/
  | inserted (insertedId : ObjectId)
  /-- The body `{ message, errors }` with the issues of a `ZodError`. -/
  | invalid (text : String) (errors : List ZodIssue)
deriving DecidableEq

/-- A response: status code and payload. -/
structure Response where
  status : Nat
  body : Body
deriving DecidableEq

/-- The call `str.split(sep)` for a one-character separator. -/
def split (sep : Char) : List Char → List (List Char)
  | [] => [[]]
  | c :: cs =>
    if c = sep then [] :: split sep cs
    else
      match split sep cs with
      | [] => [[c]]
      | w :: ws => (c :: w) :: ws

/-- The expression `authHeader && authHeader.split(' ')[1]`; `none` is
`undefined`. -/
def tokenOf (authHeader : Option String) : Option String :=
  match authHeader with
  | none => none
  | some h => if h = "" then some "" else ((split (Char.ofNat 32) h.data).get? 1).map String.mk

/-- What the middleware did: answered itself, or called `next()` on the
request. -/
inductive Guard where
  /-- It sent `res`; `req` is the request as the middleware left it. -/
  | respond (req : Req) (res : Response)
  /-- It called `next()`; `req` is the request it passed on. -/
  | next (req : Req)

/-- The middleware `authenticateToken`. -/
def authenticateToken (env : Env) (amb : Ambient) (req : Req) : Guard :=
  match tokenOf req.authorization with
  | none => .respond req ⟨401, .message "No token provided"⟩
  | some token =>
    if token = "" then .respond req ⟨401, .message "No token provided"⟩
    else
      match env.jwtVerify token amb.now with
      | none => .respond req ⟨403, .message "Invalid token"⟩
      | some user => .next { req with user := some user }

/-- A route handler: from the request and the collection to the response
and the collection it leaves. -/
abbrev Handler := Req → Collection → Response × Collection

/-- A route registered as `app.METHOD(path, authenticateToken, handler)`. -/
def guarded (env : Env) (amb : Ambient) (handler : Handler) : Handler :=
  fun req db =>
    match authenticateToken env amb req with
    | .respond _ res => (res, db)
    | .next req' => handler req' db

/-- The handler of `POST /api/auth/login`. -/
def login (env : Env) (amb : Ambient) : Handler :=
  fun req db =>
    match req.body.get "username", req.body.get "password" with
    | some (.str username), some (.str password) =>
      if username = env.ADMIN_USERNAME ∧ password = env.ADMIN_PASSWORD then
        (⟨200, .token (env.jwtSign username amb.now)⟩, db)
      else (⟨401, .message "Invalid credentials"⟩, db)
    | _, _ => (⟨401, .message "Invalid credentials"⟩, db)

/-- The handler of `GET /api/auth/verify`, behind the guard. -/
def verifyHandler : Handler :=
  fun _ db => (⟨200, .valid⟩, db)

/-- The handler of `GET /api/products`. -/
def getProducts : Handler :=
  fun req db =>
    match req.queryId with
    | some id =>
      if id = "" then (⟨200, .products (findSorted db)⟩, db)
      else
        match ObjectId.ofString id with
        | none => (⟨500, .message "Failed to fetch products"⟩, db)
        | some oid =>
          match findOne db oid with
          | none => (⟨404, .message "Product not found"⟩, db)
          | some product => (⟨200, .product product⟩, db)
    | none => (⟨200, .products (findSorted db)⟩, db)

/-- The handler of `POST /api/products`, behind the guard. -/
def createProduct (env : Env) (amb : Ambient) : Handler :=
  fun req db =>
    match productSchema.parse env.isUrl req.body with
    | .error errors => (⟨400, .invalid "Invalid product data" errors⟩, db)
    | .ok validatedData =>
      let validatedData := setField "createdAt" (.date amb.createdDate) validatedData
      let validatedData := setField "updatedAt" (.date amb.updatedDate) validatedData
      match insertOne db ⟨amb.generatedId, validatedData⟩ with
      | .error _ => (⟨500, .message "Failed to create product"⟩, db)
      | .ok db' => (⟨201, .inserted amb.generatedId⟩, db')

/-- The handler of `PUT /api/products/:id`. -/
def updateProduct : Handler :=
  fun req db =>
    if ObjectId.isValid req.paramsId = false then
      (⟨400, .message "Invalid product ID"⟩, db)
    else
      match ObjectId.ofString req.paramsId with
      | none => (⟨500, .message "Failed to update product"⟩, db)
      | some oid =>
        match updateOne db oid req.body with
        | .error _ => (⟨500, .message "Failed to update product"⟩, db)
        | .ok updatedProduct =>
          if updatedProduct.modifiedCount = 0 then
            (⟨404, .message "Product not found or no changes made"⟩, updatedProduct.db)
          else (⟨200, .message "Product updated successfully"⟩, updatedProduct.db)

/-- The handler of `DELETE /api/products/:id`, behind the guard. -/
def deleteProduct : Handler :=
  fun req db =>
    if ObjectId.isValid req.paramsId = false then
      (⟨400, .message "Invalid product ID"⟩, db)
    else
      match ObjectId.ofString req.paramsId with
      | none => (⟨500, .message "Failed to delete product"⟩, db)
      | some oid =>
        let result := deleteOne db oid
        if result.deletedCount = 0 then (⟨404, .message "Product not found"⟩, result.db)
        else (⟨204, .empty⟩, result.db)

/-- The six routes of the service. -/
inductive Route where
  | postLogin
  | getVerify
  | getProducts
  | postProducts
  | putProduct
  | deleteProduct
deriving DecidableEq

/-- The router: which handler a route runs, and whether behind the guard. -/
def handle (env : Env) (amb : Ambient) : Route → Handler
  | .postLogin => login env amb
  | .getVerify => guarded env amb verifyHandler
  | .getProducts => getProducts
  | .postProducts => guarded env amb (createProduct env amb)
  | .putProduct => updateProduct
  | .deleteProduct => guarded env amb deleteProduct

/-- One request as the service receives it. -/
structure Call where
  route : Route
  amb : Ambient
  req : Req

/-- The collection after a sequence of requests, handled one after another. -/
def run (env : Env) (db : Collection) : List Call → Collection
  | [] => db
  | c :: rest => run env (handle env c.amb c.route c.req db).2 rest

/-! ## Reading the specification -/

/-- The rule for `title` in the words of the specification: present, a
string, of length at least 1. -/
def validTitle : Option Value → Bool
  | some (.str s) => decide (s ≠ "")
  | _ => false

/-- The rule for `price` in the words of the specification: present, a
number, strictly greater than 0. -/
def validPrice : Option Value → Bool
  | some (.num q) => decide (0 < q)
  | _ => false

/-- The rule for `imageUrl` and `amazonUrl` in the words of the
specification: present, a string, a syntactically valid URL. -/
def validUrl (isUrl : String → Bool) : Option Value → Bool
  | some (.str s) => isUrl s
  | _ => false

/-- A body meets the product schema, in the words of the specification. -/
def meetsSchema (isUrl : String → Bool) (body : Value) : Bool :=
  validTitle (body.get "title") && validPrice (body.get "price") &&
    validUrl isUrl (body.get "imageUrl") && validUrl isUrl (body.get "amazonUrl")

/-- The request passes the guard: it carries a token that verifies. -/
def Authenticated (env : Env) (amb : Ambient) (req : Req) : Prop :=
  ∃ token user, tokenOf req.authorization = some token ∧ token ≠ "" ∧
    env.jwtVerify token amb.now = some user

/-- The field names of an update the model covers: not empty, without a
dot, and not starting with a dollar sign, so that the store reads the name
as one top-level field and not as a path or an operator. -/
def plainField (k : String) : Bool :=
  decide (k ≠ "") && !(k.data.contains '.') && decide (k.data.head? ≠ some '$')

/-- An update document of distinct plain field names other than `_id`. -/
def PlainUpdate (upd : Obj) : Prop :=
  (upd.map Prod.fst).Nodup ∧ ∀ k ∈ upd.map Prod.fst, plainField k = true ∧ k ≠ "_id"

instance (upd : Obj) : Decidable (PlainUpdate upd) :=
  inferInstanceAs (Decidable (_ ∧ _))

instance (env : Env) (amb : Ambient) (req : Req) : Decidable (Authenticated env amb req) :=
  match h : tokenOf req.authorization with
  | none => isFalse (by
      rintro ⟨t, u, ht, -, -⟩
      rw [h] at ht
      cases ht)
  | some token =>
    if he : token = "" then
      isFalse (by
        rintro ⟨t, u, ht, hne, -⟩
        rw [h] at ht
        cases ht
        exact hne he)
    else
      match hv : env.jwtVerify token amb.now with
      | none => isFalse (by
          rintro ⟨t, u, ht, -, hu⟩
          rw [h] at ht
          cases ht
          rw [hv] at hu
          cases hu)
      | some user => isTrue ⟨token, user, h, he, hv⟩

/-- The body, if an object, has plain field names only. -/
def plainKeys (body : Value) : Bool :=
  match body.toObj with
  | some upd => upd.all (fun kv => plainField kv.1)
  | none => true

/-- The call leaves the creation timestamp of the product `oid` alone: if it
is addressed to that product, it is not an authenticated delete, and as an
update its body has no `createdAt` key (and plain field names). -/
def Spares (env : Env) (oid : ObjectId) (c : Call) : Prop :=
  ObjectId.ofString c.req.paramsId = some oid →
    (c.route = .deleteProduct → ¬ Authenticated env c.amb c.req) ∧
    (c.route = .putProduct →
      c.req.body.get "createdAt" = none ∧ plainKeys c.req.body = true)

instance (env : Env) (oid : ObjectId) (c : Call) : Decidable (Spares env oid c) :=
  inferInstanceAs (Decidable (_ → (_ → _) ∧ (_ → _ ∧ _)))

/-! ## Sample configuration and requests -/

/-- A configuration with admin `admin`/`s3cret` whose only valid token is
`jwt:admin`. -/
def sampleEnv : Env where
  ADMIN_USERNAME := "admin"
  ADMIN_PASSWORD := "s3cret"
  jwtSign := fun username _ => "jwt:" ++ username
  jwtVerify := fun token _ => if token = "jwt:admin" then some (.str "admin") else none
  isUrl := fun s => s.data.take 8 = "https://".data

/-- Ambient readings for one request. -/
def sampleAmb : Ambient := ⟨1000, 1000, 1001, ⟨77⟩⟩

/-- A request with the given `Authorization` header and nothing else. -/
def headerReq (authorization : Option String) : Req :=
  ⟨authorization, .obj .nil, "", none, none⟩

/-- A request with the given body and nothing else. -/
def bodyReq (body : Value) : Req :=
  ⟨none, body, "", none, none⟩

/-- A request with the sample token and the given body and route parameter. -/
def adminReq (body : Value) (paramsId : String) : Req :=
  ⟨some "Bearer jwt:admin", body, paramsId, none, none⟩

/-- A sample product body with the given price. -/
def sampleBody (price : ℚ) : Value :=
  .obj (.cons "title" (.str "Widget") (.cons "price" (.num price)
    (.cons "imageUrl" (.str "https://a.co/i.png")
    (.cons "amazonUrl" (.str "https://a.co/p")
    (.cons "note" (.str "extra") .nil)))))

/-- A request with the given `id` query parameter and nothing else. -/
def queryReq (queryId : Option String) : Req :=
  ⟨none, .obj .nil, "", queryId, none⟩

/-- A collection of three products, created at times 10, 30 and 20. -/
def sampleDb : Collection :=
  [⟨⟨1⟩, [("title", .str "A"), ("createdAt", .date 10)]⟩,
    ⟨⟨2⟩, [("title", .str "B"), ("createdAt", .date 30)]⟩,
    ⟨⟨3⟩, [("title", .str "C"), ("createdAt", .date 20)]⟩]

/-- A request for `PUT /api/products/:id`. -/
def putReq (paramsId : String) (body : Value) : Req :=
  ⟨none, body, paramsId, none, none⟩

/-- The calls of the C9 counterexample: create a product, then update it with
a body that has a `createdAt` key. -/
def overwriteCalls : List Call :=
  [⟨.postProducts, sampleAmb, adminReq (sampleBody 10) ""⟩,
    ⟨.putProduct, sampleAmb,
      putReq "00000000000000000000004d" (.obj (.cons "createdAt" (.str "yesterday") .nil))⟩]

/-! ## Authentication -/

/-- C1: the login handler answers 200 with a token exactly when the body's
username and password are the configured strings; in every other case it
answers 401 with a message and no token.  It never touches the collection. -/
theorem login_ok_iff (env : Env) (amb : Ambient) (req : Req) (db : Collection) :
    ((∃ t, (login env amb req db).1 = ⟨200, .token t⟩) ↔
      (req.body.get "username" = some (.str env.ADMIN_USERNAME) ∧
        req.body.get "password" = some (.str env.ADMIN_PASSWORD))) ∧
    (¬ (req.body.get "username" = some (.str env.ADMIN_USERNAME) ∧
        req.body.get "password" = some (.str env.ADMIN_PASSWORD)) →
      (login env amb req db).1.status = 401 ∧
        ∀ t, (login env amb req db).1.body ≠ .token t) ∧
    (login env amb req db).2 = db := by
  unfold login
  split
  · rename_i username password hu hp
    by_cases h : username = env.ADMIN_USERNAME ∧ password = env.ADMIN_PASSWORD
    · obtain ⟨h1, h2⟩ := h
      subst h1 h2
      simp [hu, hp]
    · have h' : ¬ (req.body.get "username" = some (.str env.ADMIN_USERNAME) ∧
          req.body.get "password" = some (.str env.ADMIN_PASSWORD)) := by
        rw [hu, hp]
        intro hc
        apply h
        constructor
        · simpa using hc.1
        · simpa using hc.2
      simp [h, h']
  · rename_i hne
    have h' : ¬ (req.body.get "username" = some (.str env.ADMIN_USERNAME) ∧
        req.body.get "password" = some (.str env.ADMIN_PASSWORD)) := by
      intro hc
      exact hne _ _ hc.1 hc.2
    simp [h']

/-- C1, at a sample: a wrong password is answered 401 without a token. -/
theorem login_ok_iff_witness :
    (login sampleEnv sampleAmb
        (bodyReq (.obj (.cons "username" (.str "admin")
          (.cons "password" (.str "guess") .nil)))) []).1.status = 401 ∧
      ∀ t, (login sampleEnv sampleAmb
        (bodyReq (.obj (.cons "username" (.str "admin")
          (.cons "password" (.str "guess") .nil)))) []).1.body ≠ .token t :=
  (login_ok_iff sampleEnv sampleAmb _ []).2.1 (by decide)

/-- Splitting a string without the separator gives the string itself. -/
theorem split_of_not_mem (sep : Char) (l : List Char) (h : sep ∉ l) :
    split sep l = [l] := by
  induction l with
  | nil => rfl
  | cons c cs ih =>
    have hc : c ≠ sep := fun e => h (by simp [e])
    have hcs : sep ∉ cs := fun e => h (by simp [e])
    simp [split, hc, ih hcs]

/-- Splitting at the first separator: the part before it comes first. -/
theorem split_append (sep : Char) (a b : List Char) (h : sep ∉ a) :
    split sep (a ++ sep :: b) = a :: split sep b := by
  induction a with
  | nil => simp [split]
  | cons c cs ih =>
    have hc : c ≠ sep := fun e => h (by simp [e])
    have hcs : sep ∉ cs := fun e => h (by simp [e])
    simp [split, hc, ih hcs]

/-- The token of a header `Bearer <token>` whose token has no space. -/
theorem tokenOf_bearer (token : String) (h : Char.ofNat 32 ∉ token.data) :
    tokenOf (some ("Bearer " ++ token)) = some token := by
  have hne : ("Bearer " ++ token) ≠ "" := by
    intro e
    have := congrArg String.length e
    simp [String.length_append] at this
    have h7 : "Bearer ".length = 7 := by decide
    omega
  have hd : ("Bearer " ++ token).data
      = ['B', 'e', 'a', 'r', 'e', 'r'] ++ Char.ofNat 32 :: token.data := by
    rw [String.data_append]
    rfl
  have hb : Char.ofNat 32 ∉ ['B', 'e', 'a', 'r', 'e', 'r'] := by decide
  simp only [tokenOf, hne, if_false, hd, split_append _ _ _ hb, split_of_not_mem _ _ h]
  rfl

/-- A header without a space has no token part. -/
theorem tokenOf_no_space (h : String) (hs : Char.ofNat 32 ∉ h.data) :
    tokenOf (some h) = none ∨ tokenOf (some h) = some "" := by
  by_cases he : h = ""
  · right
    simp [tokenOf, he]
  · left
    simp [tokenOf, he, split_of_not_mem _ _ hs]

/-- The guard's three outcomes, by the token part and its verification. -/
theorem authenticateToken_cases (env : Env) (amb : Ambient) (req : Req) :
    ((tokenOf req.authorization = none ∨ tokenOf req.authorization = some "") ∧
      authenticateToken env amb req = .respond req ⟨401, .message "No token provided"⟩) ∨
    (∃ token, tokenOf req.authorization = some token ∧ token ≠ "" ∧
      env.jwtVerify token amb.now = none ∧
      authenticateToken env amb req = .respond req ⟨403, .message "Invalid token"⟩) ∨
    (∃ token user, tokenOf req.authorization = some token ∧ token ≠ "" ∧
      env.jwtVerify token amb.now = some user ∧
      authenticateToken env amb req = .next { req with user := some user }) := by
  unfold authenticateToken
  cases ht : tokenOf req.authorization with
  | none => left; simp
  | some token =>
    by_cases he : token = ""
    · left; simp [he]
    · right
      cases hv : env.jwtVerify token amb.now with
      | none => left; exact ⟨token, rfl, he, hv, by simp [he, hv]⟩
      | some user => right; exact ⟨token, user, rfl, he, hv, by simp [he, hv]⟩

/-- C2: on the verify endpoint, a request without an `Authorization` header is
answered 401; a request carrying a bearer token (non-empty, without a space)
whose verification fails is answered 403; and the answer is 200 only with
the body `valid: true` and only when the token the request carries was
verified successfully. -/
theorem verify_endpoint (env : Env) (amb : Ambient) (req : Req) (db : Collection) :
    (req.authorization = none →
      (handle env amb .getVerify req db).1 = ⟨401, .message "No token provided"⟩) ∧
    (∀ token : String, token ≠ "" → Char.ofNat 32 ∉ token.data →
      req.authorization = some ("Bearer " ++ token) →
      env.jwtVerify token amb.now = none →
      (handle env amb .getVerify req db).1 = ⟨403, .message "Invalid token"⟩) ∧
    ((handle env amb .getVerify req db).1.status = 200 →
      (handle env amb .getVerify req db).1.body = .valid ∧
      ∃ token user, tokenOf req.authorization = some token ∧ token ≠ "" ∧
        env.jwtVerify token amb.now = some user) ∧
    (∀ token : String, Char.ofNat 32 ∉ token.data →
      req.authorization = some ("Bearer " ++ token) →
      (handle env amb .getVerify req db).1.status = 200 →
      ∃ user, env.jwtVerify token amb.now = some user) := by
  have key : (handle env amb .getVerify req db).1.status = 200 →
      (handle env amb .getVerify req db).1.body = .valid ∧
      ∃ token user, tokenOf req.authorization = some token ∧ token ≠ "" ∧
        env.jwtVerify token amb.now = some user := by
    intro h
    rcases authenticateToken_cases env amb req with ⟨_, hg⟩ | ⟨_, _, _, _, hg⟩ |
        ⟨token, user, ht, hne, hv, hg⟩
    · simp [handle, guarded, hg] at h
    · simp [handle, guarded, hg] at h
    · exact ⟨by simp [handle, guarded, hg, verifyHandler], token, user, ht, hne, hv⟩
  refine ⟨?_, ?_, key, ?_⟩
  · intro h
    simp [handle, guarded, authenticateToken, h, tokenOf]
  · intro token hne hs ha hv
    simp [handle, guarded, authenticateToken, ha, tokenOf_bearer token hs, hne, hv]
  · intro token hs ha h
    obtain ⟨_, token', user, ht, _, hv⟩ := key h
    rw [ha, tokenOf_bearer token hs] at ht
    cases ht
    exact ⟨user, hv⟩

/-- C2, at a sample: a garbled bearer token is answered 403. -/
theorem verify_endpoint_witness :
    (handle sampleEnv sampleAmb .getVerify (headerReq (some ("Bearer " ++ "garbled"))) []).1
      = ⟨403, .message "Invalid token"⟩ :=
  (verify_endpoint sampleEnv sampleAmb (headerReq (some ("Bearer " ++ "garbled"))) []).2.1
    "garbled" (by decide) (by decide) rfl (by decide)

/-- C3: behind the guard, for any downstream handler: when no token is carried
or its verification fails, the guard answers 401 or 403 itself, leaves the
request as it arrived (no user set), the downstream handler has no part in
the outcome and the collection is unchanged, on each of the three guarded
routes too; and `next` is called exactly when the carried token is verified,
with the decoded payload as the request's user. -/
theorem guard_short_circuit (env : Env) (amb : Ambient) (handler : Handler)
    (req : Req) (db : Collection) :
    ((¬ ∃ token user, tokenOf req.authorization = some token ∧ token ≠ "" ∧
          env.jwtVerify token amb.now = some user) →
      ∃ res, authenticateToken env amb req = .respond req res ∧
        (res.status = 401 ∨ res.status = 403) ∧
        guarded env amb handler req db = (res, db) ∧
        handle env amb .getVerify req db = (res, db) ∧
        handle env amb .postProducts req db = (res, db) ∧
        handle env amb .deleteProduct req db = (res, db)) ∧
    ((∃ req', authenticateToken env amb req = .next req') ↔
      ∃ token user, tokenOf req.authorization = some token ∧ token ≠ "" ∧
        env.jwtVerify token amb.now = some user) ∧
    (∀ token user, tokenOf req.authorization = some token → token ≠ "" →
      env.jwtVerify token amb.now = some user →
      authenticateToken env amb req = .next { req with user := some user } ∧
      guarded env amb handler req db = handler { req with user := some user } db) := by
  refine ⟨?_, ?_, ?_⟩
  · intro hfail
    rcases authenticateToken_cases env amb req with ⟨_, hg⟩ | ⟨_, _, _, _, hg⟩ |
        ⟨token, user, ht, hne, hv, _⟩
    · exact ⟨_, hg, Or.inl rfl, by simp [guarded, hg], by simp [handle, guarded, hg],
        by simp [handle, guarded, hg], by simp [handle, guarded, hg]⟩
    · exact ⟨_, hg, Or.inr rfl, by simp [guarded, hg], by simp [handle, guarded, hg],
        by simp [handle, guarded, hg], by simp [handle, guarded, hg]⟩
    · exact absurd ⟨token, user, ht, hne, hv⟩ hfail
  · constructor
    · rintro ⟨req', h⟩
      rcases authenticateToken_cases env amb req with ⟨_, hg⟩ | ⟨_, _, _, _, hg⟩ |
          ⟨token, user, ht, hne, hv, _⟩
      · rw [hg] at h; cases h
      · rw [hg] at h; cases h
      · exact ⟨token, user, ht, hne, hv⟩
    · rintro ⟨token, user, ht, hne, hv⟩
      exact ⟨_, by simp [authenticateToken, ht, hne, hv]; rfl⟩
  · intro token user ht hne hv
    have hg : authenticateToken env amb req = .next { req with user := some user } := by
      simp [authenticateToken, ht, hne, hv]
    exact ⟨hg, by simp [guarded, hg]⟩

/-- C3, at a sample: without a header, a create request is answered 401 and
the collection is unchanged, whatever the handler behind the guard. -/
theorem guard_short_circuit_witness :
    ∃ res, authenticateToken sampleEnv sampleAmb (headerReq none)
        = .respond (headerReq none) res ∧
      (res.status = 401 ∨ res.status = 403) ∧
      guarded sampleEnv sampleAmb (fun _ _ => (⟨200, .valid⟩, [])) (headerReq none)
          [⟨⟨1⟩, []⟩] = (res, [⟨⟨1⟩, []⟩]) ∧
      handle sampleEnv sampleAmb .getVerify (headerReq none) [⟨⟨1⟩, []⟩]
        = (res, [⟨⟨1⟩, []⟩]) ∧
      handle sampleEnv sampleAmb .postProducts (headerReq none) [⟨⟨1⟩, []⟩]
        = (res, [⟨⟨1⟩, []⟩]) ∧
      handle sampleEnv sampleAmb .deleteProduct (headerReq none) [⟨⟨1⟩, []⟩]
        = (res, [⟨⟨1⟩, []⟩]) :=
  (guard_short_circuit sampleEnv sampleAmb (fun _ _ => (⟨200, .valid⟩, []))
    (headerReq none) [⟨⟨1⟩, []⟩]).1 (by simp [headerReq, tokenOf])

/-- C10, as stated, fails: the header `Bearer`, present but without a token
part, is answered 401 "No token provided", not 403 "Invalid token". -/
theorem malformed_header_is_401 :
    (headerReq (some "Bearer")).authorization ≠ none ∧
    (handle sampleEnv sampleAmb .getVerify (headerReq (some "Bearer")) []).1
      = ⟨401, .message "No token provided"⟩ ∧
    (handle sampleEnv sampleAmb .getVerify (headerReq (some "Bearer")) []).1
      ≠ ⟨403, .message "Invalid token"⟩ := by
  decide

/-- C10, amended: the guard answers 401 "No token provided" exactly when no
non-empty token part can be read from the header (the header is absent, or
its second space-separated part is missing or empty, as for every header
without a space), and 403 "Invalid token" exactly when a non-empty token part
is read and its verification fails. -/
theorem guard_classes (env : Env) (amb : Ambient) (req : Req) (db : Collection) :
    ((handle env amb .getVerify req db).1 = ⟨401, .message "No token provided"⟩ ↔
      (tokenOf req.authorization = none ∨ tokenOf req.authorization = some "")) ∧
    ((handle env amb .getVerify req db).1 = ⟨403, .message "Invalid token"⟩ ↔
      ∃ token, tokenOf req.authorization = some token ∧ token ≠ "" ∧
        env.jwtVerify token amb.now = none) ∧
    (req.authorization = none → tokenOf req.authorization = none) ∧
    (∀ h : String, req.authorization = some h → Char.ofNat 32 ∉ h.data →
      (handle env amb .getVerify req db).1 = ⟨401, .message "No token provided"⟩) := by
  have h401 : (handle env amb .getVerify req db).1 = ⟨401, .message "No token provided"⟩ ↔
      (tokenOf req.authorization = none ∨ tokenOf req.authorization = some "") := by
    rcases authenticateToken_cases env amb req with ⟨ht, hg⟩ | ⟨token, ht, hne, _, hg⟩ |
        ⟨token, user, ht, hne, _, hg⟩
    · simp [handle, guarded, hg, ht]
    · simp [handle, guarded, hg, ht, hne]
    · simp [handle, guarded, hg, ht, hne, verifyHandler]
  refine ⟨h401, ?_, ?_, ?_⟩
  · rcases authenticateToken_cases env amb req with ⟨ht, hg⟩ | ⟨token, ht, hne, hv, hg⟩ |
        ⟨token, user, ht, hne, hv, hg⟩
    · rcases ht with ht | ht <;> simp [handle, guarded, hg, ht]
    · simp [handle, guarded, hg, ht, hne, hv]
    · simp [handle, guarded, hg, ht, hne, hv, verifyHandler]
  · intro h
    simp [h, tokenOf]
  · intro h ha hs
    rw [h401, ha]
    exact tokenOf_no_space h hs

/-- C10 amended, at a sample: the header `Token`, without a space, is
answered 401. -/
theorem guard_classes_witness :
    (handle sampleEnv sampleAmb .getVerify (headerReq (some "Token")) []).1
      = ⟨401, .message "No token provided"⟩ :=
  (guard_classes sampleEnv sampleAmb (headerReq (some "Token")) []).2.2.2 "Token" rfl
    (by decide)

/-! ## Creating a product -/

theorem adminReq_authenticated (body : Value) (paramsId : String) :
    Authenticated sampleEnv sampleAmb (adminReq body paramsId) :=
  ⟨"jwt:admin", .str "admin",
    (by decide : tokenOf (some "Bearer jwt:admin") = some "jwt:admin"), by decide, by decide⟩

/-- Behind the guard, an authenticated request reaches the handler with the
decoded payload as its user. -/
theorem guarded_of_authenticated (env : Env) (amb : Ambient) (handler : Handler)
    (req : Req) (db : Collection) (h : Authenticated env amb req) :
    ∃ user, guarded env amb handler req db = handler { req with user := some user } db := by
  obtain ⟨token, user, ht, hne, hv⟩ := h
  exact ⟨user, by simp [guarded, authenticateToken, ht, hne, hv]⟩

theorem zNonEmptyString_spec (key : String) (v : Option Value) :
    (validTitle v = true ∧ ∃ x, v = some x ∧ zNonEmptyString key v = .ok x) ∨
    (validTitle v = false ∧ ∃ code, zNonEmptyString key v = .error ⟨code, [key]⟩) := by
  unfold zNonEmptyString validTitle
  split
  · rename_i s
    by_cases h : s = ""
    · right; subst h; simp
    · left
      have : 1 ≤ s.length := by
        rcases s with ⟨_ | ⟨c, cs⟩⟩
        · exact absurd rfl h
        · simp [String.length]
      simp [h, this]
  · right
    rename_i hne
    exact ⟨rfl, _, rfl⟩

theorem zPositiveNumber_spec (key : String) (v : Option Value) :
    (validPrice v = true ∧ ∃ x, v = some x ∧ zPositiveNumber key v = .ok x) ∨
    (validPrice v = false ∧ ∃ code, zPositiveNumber key v = .error ⟨code, [key]⟩) := by
  unfold zPositiveNumber validPrice
  split
  · rename_i q
    by_cases h : 0 < q
    · left; simp [h]
    · right; simp [h]
  · right
    rename_i hne
    exact ⟨rfl, _, rfl⟩

theorem zUrl_spec (isUrl : String → Bool) (key : String) (v : Option Value) :
    (validUrl isUrl v = true ∧ ∃ x, v = some x ∧ zUrl isUrl key v = .ok x) ∨
    (validUrl isUrl v = false ∧ ∃ code, zUrl isUrl key v = .error ⟨code, [key]⟩) := by
  unfold zUrl validUrl
  split
  · rename_i s
    by_cases h : isUrl s = true
    · left; simp [h]
    · right; simp [h]
  · right
    rename_i hne
    exact ⟨rfl, _, rfl⟩

/-- The schema against the specification's rules, on an object body: it
returns the four declared fields when all rules hold, and otherwise throws
one issue for each field that breaks its rule, and for no other. -/
theorem parse_obj (isUrl : String → Bool) (fields : FieldList) :
    (meetsSchema isUrl (.obj fields) = true ∧
      ∃ t p i a, (Value.obj fields).get "title" = some t ∧
        (Value.obj fields).get "price" = some p ∧
        (Value.obj fields).get "imageUrl" = some i ∧
        (Value.obj fields).get "amazonUrl" = some a ∧
        productSchema.parse isUrl (.obj fields)
          = .ok [("title", t), ("price", p), ("imageUrl", i), ("amazonUrl", a)]) ∨
    (meetsSchema isUrl (.obj fields) = false ∧
      ∃ errors, productSchema.parse isUrl (.obj fields) = .error errors ∧ errors ≠ [] ∧
        ((∃ e ∈ errors, e.path = ["title"]) ↔
          validTitle ((Value.obj fields).get "title") = false) ∧
        ((∃ e ∈ errors, e.path = ["price"]) ↔
          validPrice ((Value.obj fields).get "price") = false) ∧
        ((∃ e ∈ errors, e.path = ["imageUrl"]) ↔
          validUrl isUrl ((Value.obj fields).get "imageUrl") = false) ∧
        ((∃ e ∈ errors, e.path = ["amazonUrl"]) ↔
          validUrl isUrl ((Value.obj fields).get "amazonUrl") = false)) := by
  rcases zNonEmptyString_spec "title" ((Value.obj fields).get "title") with
    ⟨ht, t, hgt, hpt⟩ | ⟨ht, ct, hpt⟩ <;>
  rcases zPositiveNumber_spec "price" ((Value.obj fields).get "price") with
    ⟨hp, p, hgp, hpp⟩ | ⟨hp, cp, hpp⟩ <;>
  rcases zUrl_spec isUrl "imageUrl" ((Value.obj fields).get "imageUrl") with
    ⟨hi, i, hgi, hpi⟩ | ⟨hi, ci, hpi⟩ <;>
  rcases zUrl_spec isUrl "amazonUrl" ((Value.obj fields).get "amazonUrl") with
    ⟨ha, a, hga, hpa⟩ | ⟨ha, ca, hpa⟩
  · left
    exact ⟨by simp [meetsSchema, ht, hp, hi, ha], t, p, i, a, hgt, hgp, hgi, hga,
      by simp [productSchema.parse, hpt, hpp, hpi, hpa]⟩
  all_goals
    right
    refine ⟨by simp [meetsSchema, ht, hp, hi, ha], ?_⟩
    simp [productSchema.parse, hpt, hpp, hpi, hpa, issueOf, ht, hp, hi, ha]

/-- A body that is not an object meets no rule of the schema. -/
theorem meetsSchema_obj (isUrl : String → Bool) (body : Value)
    (h : meetsSchema isUrl body = true) : ∃ fields, body = .obj fields := by
  cases body with
  | obj fields => exact ⟨fields, rfl⟩
  | _ => simp [meetsSchema, Value.get, validTitle] at h

/-- C4: an authenticated create request whose body breaks a rule of the
product schema is answered 400 (so never 500) with a non-empty list of
issues, and the collection is unchanged; for an object body the list holds
an issue for a field exactly when that field breaks its rule. -/
theorem create_invalid_is_400 (env : Env) (amb : Ambient) (req : Req) (db : Collection)
    (hauth : Authenticated env amb req) (hbad : meetsSchema env.isUrl req.body = false) :
    ∃ errors,
      handle env amb .postProducts req db
        = (⟨400, .invalid "Invalid product data" errors⟩, db) ∧
      errors ≠ [] ∧
      (handle env amb .postProducts req db).1.status ≠ 500 ∧
      (∀ fields, req.body = .obj fields →
        ((∃ e ∈ errors, e.path = ["title"]) ↔ validTitle (req.body.get "title") = false) ∧
        ((∃ e ∈ errors, e.path = ["price"]) ↔ validPrice (req.body.get "price") = false) ∧
        ((∃ e ∈ errors, e.path = ["imageUrl"]) ↔
          validUrl env.isUrl (req.body.get "imageUrl") = false) ∧
        ((∃ e ∈ errors, e.path = ["amazonUrl"]) ↔
          validUrl env.isUrl (req.body.get "amazonUrl") = false)) := by
  obtain ⟨user, hg⟩ := guarded_of_authenticated env amb (createProduct env amb) req db hauth
  have hh : handle env amb .postProducts req db
      = createProduct env amb { req with user := some user } db := hg
  rw [hh]
  cases hb : req.body with
  | obj fields =>
    rw [hb] at hbad
    rcases parse_obj env.isUrl fields with ⟨hm, _⟩ | ⟨_, errors, hp, hne, h1, h2, h3, h4⟩
    · rw [hm] at hbad; cases hbad
    · refine ⟨errors, by simp [createProduct, hb, hp], hne, by simp [createProduct, hb, hp], ?_⟩
      intro fields' hf
      cases hf
      exact ⟨h1, h2, h3, h4⟩
  | _ =>
    exact ⟨[⟨.invalid_type, []⟩], by simp [createProduct, hb, productSchema.parse], by simp,
      by simp [createProduct, hb, productSchema.parse], by intro fields hf; cases hf⟩

/-- C4, at a sample: a body with price -5 is answered 400 with an issue for
`price`, and nothing is stored. -/
theorem create_invalid_is_400_witness :
    ∃ errors,
      handle sampleEnv sampleAmb .postProducts (adminReq (sampleBody (-5)) "") []
        = (⟨400, .invalid "Invalid product data" errors⟩, []) ∧
      errors ≠ [] ∧
      (handle sampleEnv sampleAmb .postProducts (adminReq (sampleBody (-5)) "") []).1.status
        ≠ 500 ∧
      (∀ fields, (adminReq (sampleBody (-5)) "").body = .obj fields →
        ((∃ e ∈ errors, e.path = ["title"]) ↔
          validTitle ((adminReq (sampleBody (-5)) "").body.get "title") = false) ∧
        ((∃ e ∈ errors, e.path = ["price"]) ↔
          validPrice ((adminReq (sampleBody (-5)) "").body.get "price") = false) ∧
        ((∃ e ∈ errors, e.path = ["imageUrl"]) ↔
          validUrl sampleEnv.isUrl ((adminReq (sampleBody (-5)) "").body.get "imageUrl")
            = false) ∧
        ((∃ e ∈ errors, e.path = ["amazonUrl"]) ↔
          validUrl sampleEnv.isUrl ((adminReq (sampleBody (-5)) "").body.get "amazonUrl")
            = false)) :=
  create_invalid_is_400 sampleEnv sampleAmb (adminReq (sampleBody (-5)) "") []
    (adminReq_authenticated _ _) (by decide)

/-- What the create route does with a valid body and a fresh `_id`. -/
theorem postProducts_valid (env : Env) (amb : Ambient) (req : Req) (db : Collection)
    (hauth : Authenticated env amb req) (hok : meetsSchema env.isUrl req.body = true)
    (hfresh : amb.generatedId ∉ ids db) :
    ∃ t p i a, req.body.get "title" = some t ∧ req.body.get "price" = some p ∧
      req.body.get "imageUrl" = some i ∧ req.body.get "amazonUrl" = some a ∧
      handle env amb .postProducts req db
        = (⟨201, .inserted amb.generatedId⟩,
            db ++ [⟨amb.generatedId,
              [("title", t), ("price", p), ("imageUrl", i), ("amazonUrl", a),
                ("createdAt", .date amb.createdDate),
                ("updatedAt", .date amb.updatedDate)]⟩]) := by
  obtain ⟨user, hg⟩ := guarded_of_authenticated env amb (createProduct env amb) req db hauth
  have hh : handle env amb .postProducts req db
      = createProduct env amb { req with user := some user } db := hg
  rw [hh]
  obtain ⟨fields, hb⟩ := meetsSchema_obj env.isUrl req.body hok
  rw [hb] at hok ⊢
  rcases parse_obj env.isUrl fields with ⟨_, t, p, i, a, h1, h2, h3, h4, hp⟩ | ⟨hm, _⟩
  · refine ⟨t, p, i, a, h1, h2, h3, h4, ?_⟩
    simp [createProduct, hb, hp, setField, insertOne, hfresh]
  · rw [hm] at hok; cases hok

/-- C5: an authenticated create request whose body meets the product schema
is answered 201, and the document inserted under the generated `_id` holds
the body's `title`, `price`, `imageUrl` and `amazonUrl`, then `createdAt`
and `updatedAt` as the two readings of the current time, and no other key. -/
theorem create_valid_inserts (env : Env) (amb : Ambient) (req : Req) (db : Collection)
    (hauth : Authenticated env amb req) (hok : meetsSchema env.isUrl req.body = true)
    (hfresh : amb.generatedId ∉ ids db) :
    ∃ t p i a, req.body.get "title" = some t ∧ req.body.get "price" = some p ∧
      req.body.get "imageUrl" = some i ∧ req.body.get "amazonUrl" = some a ∧
      handle env amb .postProducts req db
        = (⟨201, .inserted amb.generatedId⟩,
            db ++ [⟨amb.generatedId,
              [("title", t), ("price", p), ("imageUrl", i), ("amazonUrl", a),
                ("createdAt", .date amb.createdDate),
                ("updatedAt", .date amb.updatedDate)]⟩]) :=
  postProducts_valid env amb req db hauth hok hfresh

/-- C5, at a sample: the stored document drops the body's extra key `note`. -/
theorem create_valid_inserts_witness :
    ∃ t p i a, (adminReq (sampleBody 10) "").body.get "title" = some t ∧
      (adminReq (sampleBody 10) "").body.get "price" = some p ∧
      (adminReq (sampleBody 10) "").body.get "imageUrl" = some i ∧
      (adminReq (sampleBody 10) "").body.get "amazonUrl" = some a ∧
      handle sampleEnv sampleAmb .postProducts (adminReq (sampleBody 10) "") []
        = (⟨201, .inserted sampleAmb.generatedId⟩,
            [] ++ [⟨sampleAmb.generatedId,
              [("title", t), ("price", p), ("imageUrl", i), ("amazonUrl", a),
                ("createdAt", .date sampleAmb.createdDate),
                ("updatedAt", .date sampleAmb.updatedDate)]⟩]) :=
  create_valid_inserts sampleEnv sampleAmb (adminReq (sampleBody 10) "") []
    (adminReq_authenticated _ _) (by decide) (by decide)

/-! ## Listing -/

theorem bsonLe_total (a b : Value) : bsonLe a b = true ∨ bsonLe b a = true := by
  cases a <;> cases b <;> simp [bsonLe, bsonRank] <;> exact le_total _ _

theorem bsonLe_trans (a b c : Value) (hab : bsonLe a b = true) (hbc : bsonLe b c = true) :
    bsonLe a c = true := by
  cases a <;> cases b <;> cases c <;> simp_all [bsonLe, bsonRank] <;>
    exact le_trans hab hbc

/-- C8: a list request (no `id` in the query, or an empty one) is answered 200 with a
rearrangement of the whole collection, every document exactly once, ordered
by `createdAt` descending in the store's order; in particular, of two
adjacent items with dates the first is not the older; and an empty
collection gives 200 with the empty sequence.  The collection is unchanged. -/
theorem list_sorted_desc (env : Env) (amb : Ambient) (req : Req) (db : Collection)
    (hq : req.queryId = none ∨ req.queryId = some "") :
    ∃ docs, handle env amb .getProducts req db = (⟨200, .products docs⟩, db) ∧
      docs.Perm db ∧
      docs.Sorted createdAtDesc ∧
      docs.Chain' (fun a b => ∀ x y, a.createdAt = .date x → b.createdAt = .date y → y ≤ x) ∧
      (db = [] → docs = []) := by
  haveI : IsTotal Doc createdAtDesc := ⟨fun a b => bsonLe_total b.createdAt a.createdAt⟩
  haveI : IsTrans Doc createdAtDesc := ⟨fun _ _ _ hab hbc => bsonLe_trans _ _ _ hbc hab⟩
  refine ⟨findSorted db, by rcases hq with hq | hq <;> simp [handle, getProducts, hq],
    List.perm_insertionSort _ _,
    List.sorted_insertionSort _ _, ?_, ?_⟩
  · have hs : (findSorted db).Sorted createdAtDesc := List.sorted_insertionSort _ _
    refine List.Chain'.imp ?_ hs.chain'
    intro a b hab x y hx hy
    simpa [createdAtDesc, hx, hy, bsonLe] using hab
  · intro h
    subst h
    rfl

/-- C8, at a sample: the three products come back newest first. -/
theorem list_sorted_desc_witness :
    handle sampleEnv sampleAmb .getProducts (queryReq none) sampleDb
        = (⟨200, .products
            [⟨⟨2⟩, [("title", .str "B"), ("createdAt", .date 30)]⟩,
              ⟨⟨3⟩, [("title", .str "C"), ("createdAt", .date 20)]⟩,
              ⟨⟨1⟩, [("title", .str "A"), ("createdAt", .date 10)]⟩]⟩, sampleDb) ∧
      ∃ docs, handle sampleEnv sampleAmb .getProducts (queryReq none) sampleDb
          = (⟨200, .products docs⟩, sampleDb) ∧
        docs.Perm sampleDb ∧
        docs.Sorted createdAtDesc ∧
        docs.Chain' (fun a b => ∀ x y, a.createdAt = .date x → b.createdAt = .date y → y ≤ x) ∧
        (sampleDb = [] → docs = []) :=
  ⟨by decide, list_sorted_desc sampleEnv sampleAmb (queryReq none) sampleDb (Or.inl rfl)⟩

/-! ## The collection: lookups, removal, replacement -/

theorem findOne_some (db : Collection) (id : ObjectId) (d : Doc)
    (h : findOne db id = some d) : d ∈ db ∧ d._id = id := by
  unfold findOne at h
  exact ⟨List.mem_of_find?_eq_some h, by simpa using List.find?_some h⟩

theorem findOne_of_mem (db : Collection) (id : ObjectId) (d : Doc)
    (hd : d ∈ db) (hid : d._id = id) : ∃ d', findOne db id = some d' := by
  cases h : findOne db id with
  | some d' => exact ⟨d', rfl⟩
  | none =>
    unfold findOne at h
    rw [List.find?_eq_none] at h
    exact absurd hid (by simpa using h d hd)

theorem findOne_unique (db : Collection) (id : ObjectId) (d : Doc) (huniq : UniqueIds db)
    (hd : d ∈ db) (hid : d._id = id) : findOne db id = some d := by
  induction db with
  | nil => cases hd
  | cons x rest ih =>
    have hn : x._id ∉ ids rest ∧ UniqueIds rest := by
      simpa [UniqueIds, ids] using huniq
    by_cases hx : x._id = id
    · rcases List.mem_cons.mp hd with e | hmem
      · simp [findOne, ← e, hid]
      · exact absurd (by rw [hx, ← hid]; exact List.mem_map_of_mem _ hmem) hn.1
    · rcases List.mem_cons.mp hd with e | hmem
      · exact absurd (by rw [← e]; exact hid) hx
      · have := ih hn.2 hmem
        simpa [findOne, hx] using this

theorem mem_eraseOne (db : Collection) (id : ObjectId) (huniq : UniqueIds db) (x : Doc) :
    x ∈ eraseOne id db ↔ x ∈ db ∧ x._id ≠ id := by
  induction db with
  | nil => simp [eraseOne]
  | cons y rest ih =>
    have hn : y._id ∉ ids rest ∧ UniqueIds rest := by
      simpa [UniqueIds, ids] using huniq
    by_cases hy : y._id = id
    · simp only [eraseOne, hy, if_true, List.mem_cons]
      constructor
      · intro hx
        refine ⟨Or.inr hx, ?_⟩
        intro e
        exact hn.1 (by rw [hy, ← e]; exact List.mem_map_of_mem _ hx)
      · rintro ⟨hx | hx, hne⟩
        · exact absurd (by rw [hx]; exact hy) hne
        · exact hx
    · simp only [eraseOne, hy, if_false, List.mem_cons, ih hn.2]
      constructor
      · rintro (hx | ⟨hx, hne⟩)
        · exact ⟨Or.inl hx, by rw [hx]; exact hy⟩
        · exact ⟨Or.inr hx, hne⟩
      · rintro ⟨hx | hx, hne⟩
        · exact Or.inl hx
        · exact Or.inr ⟨hx, hne⟩

theorem length_eraseOne (db : Collection) (id : ObjectId) (d : Doc)
    (h : findOne db id = some d) : (eraseOne id db).length + 1 = db.length := by
  induction db with
  | nil => simp [findOne] at h
  | cons y rest ih =>
    by_cases hy : y._id = id
    · simp [eraseOne, hy]
    · have : findOne rest id = some d := by simpa [findOne, hy] using h
      simp [eraseOne, hy, ih this]

theorem findOne_eraseOne_ne (db : Collection) (id id' : ObjectId) (hne : id ≠ id') :
    findOne (eraseOne id' db) id = findOne db id := by
  induction db with
  | nil => rfl
  | cons y rest ih =>
    by_cases hy : y._id = id'
    · have : y._id ≠ id := fun e => hne (e ▸ hy)
      simp [eraseOne, hy, findOne, hne.symm]
    · by_cases hy2 : y._id = id
      · simp only [eraseOne, hy, if_false, findOne]
        simp [hy2]
      · simp only [eraseOne, hy, if_false, findOne]
        simpa [findOne, hy2] using ih

theorem findOne_eraseOne_self (db : Collection) (id : ObjectId) (huniq : UniqueIds db) :
    findOne (eraseOne id db) id = none := by
  cases h : findOne (eraseOne id db) id with
  | none => rfl
  | some d =>
    obtain ⟨hm, hid⟩ := findOne_some _ _ _ h
    exact absurd hid ((mem_eraseOne db id huniq d).mp hm).2

/-- A string the ObjectId constructor accepts is not empty. -/
theorem ofString_ne_empty (id : String) (oid : ObjectId)
    (h : ObjectId.ofString id = some oid) : id ≠ "" := by
  intro e
  subst e
  simp [ObjectId.ofString] at h

theorem isValid_of_ofString (id : String) (oid : ObjectId)
    (h : ObjectId.ofString id = some oid) : ObjectId.isValid id = true := by
  simp [ObjectId.isValid, h]

/-! ## Deleting a product -/

/-- C7: for a collection with unique `_id`s and the identifier of a document
in it, an authenticated delete is answered 204 with an empty body and removes
exactly that document; afterwards a get by that identifier is answered 404
and a second authenticated delete of it is answered 404; and an
authenticated delete with a malformed identifier is answered 400 and leaves
the collection unchanged. -/
theorem delete_then_gone (env : Env) (amb amb2 : Ambient) (req getReq : Req)
    (db : Collection) (oid : ObjectId) (d : Doc)
    (huniq : UniqueIds db) (hauth : Authenticated env amb req)
    (hauth2 : Authenticated env amb2 req)
    (hid : ObjectId.ofString req.paramsId = some oid) (hd : d ∈ db) (hdid : d._id = oid)
    (hget : getReq.queryId = some req.paramsId) :
    (∃ db', handle env amb .deleteProduct req db = (⟨204, .empty⟩, db') ∧
      (∀ x, x ∈ db' ↔ x ∈ db ∧ x ≠ d) ∧
      db'.length + 1 = db.length ∧
      handle env amb2 .getProducts getReq db' = (⟨404, .message "Product not found"⟩, db') ∧
      handle env amb2 .deleteProduct req db'
        = (⟨404, .message "Product not found"⟩, db')) ∧
    (∀ req', Authenticated env amb req' → ObjectId.isValid req'.paramsId = false →
      handle env amb .deleteProduct req' db = (⟨400, .message "Invalid product ID"⟩, db)) := by
  constructor
  · obtain ⟨user, hg⟩ := guarded_of_authenticated env amb deleteProduct req db hauth
    have hfind : findOne db oid = some d := findOne_unique db oid d huniq hd hdid
    have hvalid : ObjectId.isValid req.paramsId = true := isValid_of_ofString _ _ hid
    have hgone : findOne (eraseOne oid db) oid = none := findOne_eraseOne_self db oid huniq
    refine ⟨eraseOne oid db, ?_, ?_, length_eraseOne db oid d hfind, ?_, ?_⟩
    · have hh : handle env amb .deleteProduct req db
          = deleteProduct { req with user := some user } db := hg
      rw [hh]
      simp [deleteProduct, hvalid, hid, deleteOne, hfind]
    · intro x
      rw [mem_eraseOne db oid huniq x]
      constructor
      · rintro ⟨hx, hne⟩
        exact ⟨hx, fun e => hne (by rw [e]; exact hdid)⟩
      · rintro ⟨hx, hne⟩
        refine ⟨hx, fun e => hne ?_⟩
        have := findOne_unique db oid x huniq hx e
        rw [hfind] at this
        cases this
        rfl
    · have hne : req.paramsId ≠ "" := ofString_ne_empty _ _ hid
      simp [handle, getProducts, hget, hne, hid, hgone]
    · obtain ⟨user2, hg2⟩ :=
        guarded_of_authenticated env amb2 deleteProduct req (eraseOne oid db) hauth2
      have hh : handle env amb2 .deleteProduct req (eraseOne oid db)
          = deleteProduct { req with user := some user2 } (eraseOne oid db) := hg2
      rw [hh]
      simp [deleteProduct, hvalid, hid, deleteOne, hgone]
  · intro req' hauth' hbad
    obtain ⟨user, hg⟩ := guarded_of_authenticated env amb deleteProduct req' db hauth'
    have hh : handle env amb .deleteProduct req' db
        = deleteProduct { req' with user := some user } db := hg
    rw [hh]
    simp [deleteProduct, hbad]

/-- C7, at a sample: deleting product 2 of the sample collection. -/
theorem delete_then_gone_witness :
    (∃ db', handle sampleEnv sampleAmb .deleteProduct
          (adminReq (.obj .nil) "000000000000000000000002") sampleDb = (⟨204, .empty⟩, db') ∧
      (∀ x, x ∈ db' ↔
        x ∈ sampleDb ∧ x ≠ ⟨⟨2⟩, [("title", .str "B"), ("createdAt", .date 30)]⟩) ∧
      db'.length + 1 = sampleDb.length ∧
      handle sampleEnv sampleAmb .getProducts
          (queryReq (some "000000000000000000000002")) db'
        = (⟨404, .message "Product not found"⟩, db') ∧
      handle sampleEnv sampleAmb .deleteProduct
          (adminReq (.obj .nil) "000000000000000000000002") db'
        = (⟨404, .message "Product not found"⟩, db')) ∧
    (∀ req', Authenticated sampleEnv sampleAmb req' →
      ObjectId.isValid req'.paramsId = false →
      handle sampleEnv sampleAmb .deleteProduct req' sampleDb
        = (⟨400, .message "Invalid product ID"⟩, sampleDb)) :=
  delete_then_gone sampleEnv sampleAmb sampleAmb
    (adminReq (.obj .nil) "000000000000000000000002")
    (queryReq (some "000000000000000000000002")) sampleDb ⟨2⟩
    ⟨⟨2⟩, [("title", .str "B"), ("createdAt", .date 30)]⟩
    (by decide) (adminReq_authenticated _ _) (adminReq_authenticated _ _)
    (by decide) (by decide) rfl rfl

/-! ## Updating a product -/

theorem lookup_cons_self (k : String) (v : Value) (rest : Obj) :
    List.lookup k ((k, v) :: rest) = some v := by
  simp [List.lookup]

theorem lookup_cons_ne (k k₁ : String) (v₁ : Value) (rest : Obj) (h : k ≠ k₁) :
    List.lookup k ((k₁, v₁) :: rest) = List.lookup k rest := by
  have hb : (k == k₁) = false := by simpa using h
  simp [List.lookup, hb]

theorem mem_keys_of_lookup (fields : Obj) (k : String) (v : Value)
    (h : fields.lookup k = some v) : k ∈ fields.map Prod.fst := by
  induction fields with
  | nil => simp [List.lookup] at h
  | cons kv rest ih =>
    obtain ⟨k₁, v₁⟩ := kv
    by_cases e : k = k₁
    · simp [e]
    · rw [lookup_cons_ne k k₁ v₁ rest e] at h
      simp [ih h]

theorem lookup_setField (k : String) (v : Value) (fields : Obj) (k' : String) :
    (setField k v fields).lookup k' = if k' = k then some v else fields.lookup k' := by
  induction fields with
  | nil =>
    by_cases h : k' = k
    · subst h
      simp [setField, lookup_cons_self]
    · simp [setField, lookup_cons_ne _ _ _ _ h, h]
  | cons kv rest ih =>
    obtain ⟨k₁, v₁⟩ := kv
    by_cases h1 : k₁ = k
    · subst h1
      by_cases h : k' = k₁
      · subst h
        simp [setField, lookup_cons_self]
      · simp [setField, lookup_cons_ne _ _ _ _ h, h]
    · by_cases h2 : k' = k₁
      · subst h2
        have h : ¬ k' = k := h1
        simp [setField, h1, lookup_cons_self, h]
      · simp [setField, h1, lookup_cons_ne _ _ _ _ h2, ih]

theorem lookup_setFields_some (upd fields : Obj) (k : String) (v : Value)
    (h : upd.lookup k = some v) : (setFields upd fields).lookup k = some v := by
  induction upd with
  | nil => simp [List.lookup] at h
  | cons kv rest ih =>
    obtain ⟨k₁, v₁⟩ := kv
    show (setField k₁ v₁ (setFields rest fields)).lookup k = some v
    rw [lookup_setField]
    by_cases hk : k = k₁
    · subst hk
      rw [lookup_cons_self] at h
      simp [h]
    · rw [lookup_cons_ne _ _ _ _ hk] at h
      simp [hk, ih h]

theorem lookup_setFields_none (upd fields : Obj) (k : String)
    (h : upd.lookup k = none) : (setFields upd fields).lookup k = fields.lookup k := by
  induction upd with
  | nil => rfl
  | cons kv rest ih =>
    obtain ⟨k₁, v₁⟩ := kv
    show (setField k₁ v₁ (setFields rest fields)).lookup k = fields.lookup k
    rw [lookup_setField]
    by_cases hk : k = k₁
    · subst hk
      rw [lookup_cons_self] at h
      cases h
    · rw [lookup_cons_ne _ _ _ _ hk] at h
      simp [hk, ih h]

theorem setField_self (k : String) (v : Value) (fields : Obj)
    (h : fields.lookup k = some v) : setField k v fields = fields := by
  induction fields with
  | nil => simp [List.lookup] at h
  | cons kv rest ih =>
    obtain ⟨k₁, v₁⟩ := kv
    by_cases h1 : k₁ = k
    · subst h1
      rw [lookup_cons_self] at h
      cases h
      simp [setField]
    · have h2 : k ≠ k₁ := fun e => h1 e.symm
      rw [lookup_cons_ne _ _ _ _ h2] at h
      simp [setField, h1, ih h]

/-- An update whose values the document already has leaves it as it is. -/
theorem setFields_self (upd fields : Obj) (hnd : (upd.map Prod.fst).Nodup)
    (h : ∀ k v, upd.lookup k = some v → fields.lookup k = some v) :
    setFields upd fields = fields := by
  induction upd with
  | nil => rfl
  | cons kv rest ih =>
    obtain ⟨k₁, v₁⟩ := kv
    have hn : k₁ ∉ rest.map Prod.fst ∧ (rest.map Prod.fst).Nodup := by
      simpa using hnd
    have hrest : ∀ k v, rest.lookup k = some v → fields.lookup k = some v := by
      intro k v hk
      apply h
      by_cases e : k = k₁
      · subst e
        exact absurd (mem_keys_of_lookup rest k v hk) hn.1
      · rw [lookup_cons_ne _ _ _ _ e]
        exact hk
    show setField k₁ v₁ (setFields rest fields) = fields
    rw [ih hn.2 hrest]
    exact setField_self k₁ v₁ fields (h k₁ v₁ (lookup_cons_self _ _ _))

theorem findOne_replaceOne_self (db : Collection) (id : ObjectId) (d d' : Doc)
    (h : findOne db id = some d) (hid : d'._id = id) :
    findOne (replaceOne id d' db) id = some d' := by
  induction db with
  | nil => simp [findOne] at h
  | cons y rest ih =>
    by_cases hy : y._id = id
    · simp [replaceOne, hy, findOne, hid]
    · have : findOne rest id = some d := by simpa [findOne, hy] using h
      simp only [replaceOne, hy, if_false, findOne]
      simpa [findOne, hy] using ih this

theorem findOne_replaceOne_ne (db : Collection) (id id' : ObjectId) (d' : Doc)
    (hne : id ≠ id') (hid : d'._id = id') :
    findOne (replaceOne id' d' db) id = findOne db id := by
  induction db with
  | nil => rfl
  | cons y rest ih =>
    by_cases hy : y._id = id'
    · have h1 : ¬ y._id = id := fun e => hne (e ▸ hy)
      have h2 : ¬ d'._id = id := fun e => hne (e ▸ hid)
      simp only [replaceOne, hy, if_true, findOne]
      simp [h1, h2]
    · by_cases hy2 : y._id = id
      · simp only [replaceOne, hy, if_false, findOne]
        simp [hy2]
      · simp only [replaceOne, hy, if_false, findOne]
        simpa [findOne, hy2] using ih

/-- Under unique `_id`s, replacing the document with an `_id` changes that
document and no other. -/
theorem replaceOne_eq_map (db : Collection) (id : ObjectId) (d' : Doc)
    (huniq : UniqueIds db) :
    replaceOne id d' db = db.map (fun x => if x._id = id then d' else x) := by
  induction db with
  | nil => rfl
  | cons y rest ih =>
    have hn : y._id ∉ ids rest ∧ UniqueIds rest := by
      simpa [UniqueIds, ids] using huniq
    by_cases hy : y._id = id
    · have hrest : rest.map (fun x => if x._id = id then d' else x) = rest := by
        conv_rhs => rw [← List.map_id rest]
        apply List.map_congr_left
        intro x hx
        have : ¬ x._id = id := fun e =>
          hn.1 (by rw [hy, ← e]; exact List.mem_map_of_mem _ hx)
        simp [this]
      simp [replaceOne, hy, hrest]
    · simp [replaceOne, hy, ih hn.2]

theorem replaceOne_same (db : Collection) (id : ObjectId) (d : Doc)
    (h : findOne db id = some d) : replaceOne id d db = db := by
  induction db with
  | nil => rfl
  | cons y rest ih =>
    by_cases hy : y._id = id
    · have : y = d := by simpa [findOne, hy] using h
      subst this
      simp [replaceOne, hy]
    · have : findOne rest id = some d := by simpa [findOne, hy] using h
      simp [replaceOne, hy, ih this]

theorem PlainUpdate.lookup_id (upd : Obj) (h : PlainUpdate upd) :
    upd.lookup "_id" = none := by
  cases hl : upd.lookup "_id" with
  | none => rfl
  | some v => exact absurd rfl (h.2 "_id" (mem_keys_of_lookup upd "_id" v hl)).2

/-- The store's answer to a plain update of an existing document. -/
theorem updateOne_plain (db : Collection) (oid : ObjectId) (body : Value) (upd : Obj)
    (d : Doc) (hobj : body.toObj = some upd) (hp : PlainUpdate upd)
    (hf : findOne db oid = some d) :
    updateOne db oid body
      = .ok ⟨replaceOne oid ⟨oid, setFields upd d.fields⟩ db,
          if (⟨oid, setFields upd d.fields⟩ : Doc) = d then 0 else 1⟩ := by
  have hid : d._id = oid := (findOne_some db oid d hf).2
  have hset : applySet upd d = .ok ⟨oid, setFields upd d.fields⟩ := by
    simp [applySet, PlainUpdate.lookup_id upd hp, hid]
  unfold updateOne
  simp only [hobj, hf, hset]
  by_cases he : (⟨oid, setFields upd d.fields⟩ : Doc) = d
  · rw [if_pos he, if_pos he, he, replaceOne_same db oid d hf]
  · rw [if_neg he, if_neg he]

/-- C6, as stated, fails: with a valid identifier of an existing product and
the body `{ _id: "x", title: "New" }` nothing is merged and the answer is
neither 404 nor 200 but 500, the store rejecting the write of `_id`. -/
theorem update_with_id_key_is_500 :
    ObjectId.isValid "000000000000000000000002" = true ∧
    findOne sampleDb ⟨2⟩ = some ⟨⟨2⟩, [("title", .str "B"), ("createdAt", .date 30)]⟩ ∧
    handle sampleEnv sampleAmb .putProduct
        (putReq "000000000000000000000002"
          (.obj (.cons "_id" (.str "x") (.cons "title" (.str "New") .nil)))) sampleDb
      = (⟨500, .message "Failed to update product"⟩, sampleDb) := by
  decide

/-- C6, amended: an update with a malformed identifier is answered 400 and
changes nothing, whether or not any document exists.  With a valid
identifier and a body that is an object of distinct plain field names other
than `_id`: if no document has the identifier the answer is 404 and nothing
changes; otherwise the body's fields are merged into that document, each key
of the body taking the body's value, every other field of the document and
every other document staying as they were; zero documents are modified
exactly when the document already had all these values; the answer is 404
"not found or no changes made" when zero documents were modified and 200
otherwise; and a get by that identifier then returns the merged document.
A body that is not an object, and a body that would change `_id` of an
existing document, are answered 500 and change nothing. -/
theorem update_merges (env : Env) (amb : Ambient) (req getReq : Req) (db : Collection)
    (huniq : UniqueIds db) (hget : getReq.queryId = some req.paramsId) :
    (ObjectId.isValid req.paramsId = false →
      handle env amb .putProduct req db = (⟨400, .message "Invalid product ID"⟩, db)) ∧
    (∀ oid upd, ObjectId.ofString req.paramsId = some oid → req.body.toObj = some upd →
      PlainUpdate upd →
      (findOne db oid = none →
        handle env amb .putProduct req db
          = (⟨404, .message "Product not found or no changes made"⟩, db)) ∧
      (∀ d, findOne db oid = some d →
        ∃ res r, updateOne db oid req.body = .ok r ∧
          handle env amb .putProduct req db = (res, r.db) ∧
          r.db = db.map (fun x => if x._id = oid then ⟨oid, setFields upd d.fields⟩ else x) ∧
          (∀ k v, upd.lookup k = some v → (setFields upd d.fields).lookup k = some v) ∧
          (∀ k, upd.lookup k = none →
            (setFields upd d.fields).lookup k = d.fields.lookup k) ∧
          (r.modifiedCount = 0 ↔ ∀ k v, upd.lookup k = some v → d.fields.lookup k = some v) ∧
          (r.modifiedCount = 0 →
            res = ⟨404, .message "Product not found or no changes made"⟩) ∧
          (r.modifiedCount ≠ 0 → res = ⟨200, .message "Product updated successfully"⟩) ∧
          handle env amb .getProducts getReq r.db
            = (⟨200, .product ⟨oid, setFields upd d.fields⟩⟩, r.db))) ∧
    (∀ oid, ObjectId.ofString req.paramsId = some oid → req.body.toObj = none →
      handle env amb .putProduct req db = (⟨500, .message "Failed to update product"⟩, db)) ∧
    (∀ oid upd d v, ObjectId.ofString req.paramsId = some oid → req.body.toObj = some upd →
      findOne db oid = some d → upd.lookup "_id" = some v → v ≠ .oid oid.value →
      handle env amb .putProduct req db
        = (⟨500, .message "Failed to update product"⟩, db)) := by
  refine ⟨?_, ?_, ?_, ?_⟩
  · intro hbad
    simp [handle, updateProduct, hbad]
  · intro oid upd hid hobj hp
    have hvalid : ObjectId.isValid req.paramsId = true := isValid_of_ofString _ _ hid
    constructor
    · intro hnone
      simp [handle, updateProduct, hvalid, hid, updateOne, hobj, hnone]
    · intro d hf
      have hu := updateOne_plain db oid req.body upd d hobj hp hf
      have hdid : d._id = oid := (findOne_some db oid d hf).2
      have hcount : ((⟨oid, setFields upd d.fields⟩ : Doc) = d) ↔
          ∀ k v, upd.lookup k = some v → d.fields.lookup k = some v := by
        constructor
        · intro he k v hk
          have h1 := lookup_setFields_some upd d.fields k v hk
          have h2 : setFields upd d.fields = d.fields := congrArg Doc.fields he
          rw [h2] at h1
          exact h1
        · intro hall
          have h2 := setFields_self upd d.fields hp.1 hall
          rw [h2, ← hdid]
      have hne : req.paramsId ≠ "" := ofString_ne_empty _ _ hid
      have hfound : findOne (replaceOne oid ⟨oid, setFields upd d.fields⟩ db) oid
          = some ⟨oid, setFields upd d.fields⟩ :=
        findOne_replaceOne_self db oid d ⟨oid, setFields upd d.fields⟩ hf rfl
      by_cases he : (⟨oid, setFields upd d.fields⟩ : Doc) = d
      · rw [if_pos he] at hu
        refine ⟨⟨404, .message "Product not found or no changes made"⟩, _, hu, ?_,
          replaceOne_eq_map db oid _ huniq, lookup_setFields_some upd d.fields,
          lookup_setFields_none upd d.fields, ?_, fun _ => rfl, fun h => absurd rfl h, ?_⟩
        · simp [handle, updateProduct, hvalid, hid, hu]
        · simpa using hcount.mp he
        · simp [handle, getProducts, hget, hne, hid, hfound]
      · rw [if_neg he] at hu
        refine ⟨⟨200, .message "Product updated successfully"⟩, _, hu, ?_,
          replaceOne_eq_map db oid _ huniq, lookup_setFields_some upd d.fields,
          lookup_setFields_none upd d.fields, ?_, fun h => absurd h (by simp), fun _ => rfl, ?_⟩
        · simp [handle, updateProduct, hvalid, hid, hu]
        · constructor
          · intro h
            simp at h
          · intro hall
            exact absurd (hcount.mpr hall) he
        · simp [handle, getProducts, hget, hne, hid, hfound]
  · intro oid hid hobj
    have hvalid : ObjectId.isValid req.paramsId = true := isValid_of_ofString _ _ hid
    simp [handle, updateProduct, hvalid, hid, updateOne, hobj]
  · intro oid upd d v hid hobj hf hl hv
    have hvalid : ObjectId.isValid req.paramsId = true := isValid_of_ofString _ _ hid
    have hdid : d._id = oid := (findOne_some db oid d hf).2
    have hset : applySet upd d = .error .immutableField := by
      simp [applySet, hl, hdid, hv]
    simp [handle, updateProduct, hvalid, hid, updateOne, hobj, hf, hset]

/-- C6 amended, at a sample: retitling product 2 of the sample collection. -/
theorem update_merges_witness :
    handle sampleEnv sampleAmb .putProduct
        (putReq "000000000000000000000002" (.obj (.cons "title" (.str "New") .nil))) sampleDb
      = (⟨200, .message "Product updated successfully"⟩,
          [⟨⟨1⟩, [("title", .str "A"), ("createdAt", .date 10)]⟩,
            ⟨⟨2⟩, [("title", .str "New"), ("createdAt", .date 30)]⟩,
            ⟨⟨3⟩, [("title", .str "C"), ("createdAt", .date 20)]⟩]) ∧
    ∃ res r,
      updateOne sampleDb ⟨2⟩
          (putReq "000000000000000000000002" (.obj (.cons "title" (.str "New") .nil))).body
        = .ok r ∧
      handle sampleEnv sampleAmb .putProduct
          (putReq "000000000000000000000002" (.obj (.cons "title" (.str "New") .nil))) sampleDb
        = (res, r.db) ∧
      r.db = sampleDb.map (fun x => if x._id = ⟨2⟩ then
        ⟨⟨2⟩, setFields [("title", .str "New")]
          (Doc.fields ⟨⟨2⟩, [("title", .str "B"), ("createdAt", .date 30)]⟩)⟩ else x) ∧
      (∀ k v, List.lookup k [("title", Value.str "New")] = some v →
        (setFields [("title", .str "New")]
          (Doc.fields ⟨⟨2⟩, [("title", .str "B"), ("createdAt", .date 30)]⟩)).lookup k
          = some v) ∧
      (∀ k, List.lookup k [("title", Value.str "New")] = none →
        (setFields [("title", .str "New")]
          (Doc.fields ⟨⟨2⟩, [("title", .str "B"), ("createdAt", .date 30)]⟩)).lookup k
          = (Doc.fields ⟨⟨2⟩, [("title", .str "B"), ("createdAt", .date 30)]⟩).lookup k) ∧
      (r.modifiedCount = 0 ↔ ∀ k v, List.lookup k [("title", Value.str "New")] = some v →
        (Doc.fields ⟨⟨2⟩, [("title", .str "B"), ("createdAt", .date 30)]⟩).lookup k
          = some v) ∧
      (r.modifiedCount = 0 →
        res = ⟨404, .message "Product not found or no changes made"⟩) ∧
      (r.modifiedCount ≠ 0 → res = ⟨200, .message "Product updated successfully"⟩) ∧
      handle sampleEnv sampleAmb .getProducts
          (queryReq (some "000000000000000000000002")) r.db
        = (⟨200, .product ⟨⟨2⟩, setFields [("title", .str "New")]
            (Doc.fields ⟨⟨2⟩, [("title", .str "B"), ("createdAt", .date 30)]⟩)⟩⟩, r.db) :=
  ⟨by decide,
    ((update_merges sampleEnv sampleAmb
        (putReq "000000000000000000000002" (.obj (.cons "title" (.str "New") .nil)))
        (queryReq (some "000000000000000000000002")) sampleDb (by decide) rfl).2.1
      ⟨2⟩ [("title", .str "New")] (by decide) rfl (by decide)).2
      ⟨⟨2⟩, [("title", .str "B"), ("createdAt", .date 30)]⟩ (by decide)⟩

/-! ## The creation timestamp over a run -/

theorem login_db (env : Env) (amb : Ambient) (req : Req) (db : Collection) :
    (login env amb req db).2 = db := by
  unfold login
  split
  · split <;> rfl
  · rfl

/-- Behind the guard: either the guard answered and nothing changed, or the
request is authenticated and the handler ran on it with a user set. -/
theorem guarded_cases (env : Env) (amb : Ambient) (handler : Handler)
    (req : Req) (db : Collection) :
    (guarded env amb handler req db).2 = db ∨
    (Authenticated env amb req ∧
      ∃ user, guarded env amb handler req db = handler { req with user := some user } db) := by
  rcases authenticateToken_cases env amb req with ⟨_, hg⟩ | ⟨_, _, _, _, hg⟩ |
      ⟨token, user, ht, hne, hv, hg⟩
  · left; simp [guarded, hg]
  · left; simp [guarded, hg]
  · right
    exact ⟨⟨token, user, ht, hne, hv⟩, user, by simp [guarded, hg]⟩

theorem findOne_append (db : Collection) (id : ObjectId) (d x : Doc)
    (h : findOne db id = some d) : findOne (db ++ [x]) id = some d := by
  unfold findOne at h ⊢
  rw [List.find?_append, h]
  rfl

theorem findOne_append_new (db : Collection) (x : Doc) (h : x._id ∉ ids db) :
    findOne (db ++ [x]) x._id = some x := by
  have hn : db.find? (fun d => d._id = x._id) = none := by
    rw [List.find?_eq_none]
    intro y hy
    have : y._id ≠ x._id := fun e => h (e ▸ List.mem_map_of_mem _ hy)
    simpa using this
  unfold findOne
  rw [List.find?_append, hn]
  simp

theorem lookup_filter_ne (upd : Obj) (k k₀ : String) (h : k ≠ k₀) :
    (upd.filter (fun kv => kv.1 ≠ k₀)).lookup k = upd.lookup k := by
  induction upd with
  | nil => rfl
  | cons kv rest ih =>
    obtain ⟨k₁, v₁⟩ := kv
    by_cases h1 : k₁ = k₀
    · subst h1
      have hf : List.filter (fun kv : String × Value => decide (kv.1 ≠ k₁)) ((k₁, v₁) :: rest)
          = List.filter (fun kv => decide (kv.1 ≠ k₁)) rest := by
        simp [List.filter]
      rw [hf, ih, lookup_cons_ne _ _ _ _ h]
    · have hf : List.filter (fun kv : String × Value => decide (kv.1 ≠ k₀)) ((k₁, v₁) :: rest)
          = (k₁, v₁) :: List.filter (fun kv => decide (kv.1 ≠ k₀)) rest := by
        simp [List.filter, h1]
      rw [hf]
      by_cases h2 : k = k₁
      · subst h2
        rw [lookup_cons_self, lookup_cons_self]
      · rw [lookup_cons_ne _ _ _ _ h2, lookup_cons_ne _ _ _ _ h2, ih]

/-- The store's `$set` keeps `_id`, and keeps every field the update does
not name. -/
theorem applySet_keeps (upd : Obj) (d d' : Doc) (k : String)
    (h : applySet upd d = .ok d') (hk : upd.lookup k = none) (hne : k ≠ "_id") :
    d'._id = d._id ∧ d'.fields.lookup k = d.fields.lookup k := by
  unfold applySet at h
  split at h
  · split at h
    · cases h
      exact ⟨rfl, lookup_setFields_none _ _ _ (by rw [lookup_filter_ne upd k "_id" hne]; exact hk)⟩
    · cases h
  · cases h
    exact ⟨rfl, lookup_setFields_none _ _ _ hk⟩

theorem createProduct_keeps (env : Env) (amb : Ambient) (req : Req) (db : Collection)
    (oid : ObjectId) (d : Doc) (hf : findOne db oid = some d) :
    findOne (createProduct env amb req db).2 oid = some d := by
  unfold createProduct
  split
  · exact hf
  · simp only []
    split
    · exact hf
    · rename_i db' hins
      unfold insertOne at hins
      split at hins
      · cases hins
      · cases hins
        exact findOne_append db oid d _ hf

theorem deleteProduct_keeps (req : Req) (db : Collection) (oid : ObjectId) (d : Doc)
    (hf : findOne db oid = some d) (hne : ObjectId.ofString req.paramsId ≠ some oid) :
    findOne (deleteProduct req db).2 oid = some d := by
  unfold deleteProduct
  split
  · exact hf
  · split
    · exact hf
    · rename_i oid' hid
      have hne' : oid ≠ oid' := fun e => hne (by rw [hid, e])
      simp only [deleteOne]
      split <;> split <;>
        first
          | exact hf
          | (rw [findOne_eraseOne_ne db oid oid' hne']; exact hf)

theorem updateProduct_keeps (req : Req) (db : Collection) (oid : ObjectId) (d : Doc)
    (hf : findOne db oid = some d)
    (hs : ObjectId.ofString req.paramsId = some oid → req.body.get "createdAt" = none) :
    ∃ d', findOne (updateProduct req db).2 oid = some d' ∧
      d'.fields.lookup "createdAt" = d.fields.lookup "createdAt" := by
  unfold updateProduct
  split
  · exact ⟨d, hf, rfl⟩
  · split
    · exact ⟨d, hf, rfl⟩
    · rename_i oid' hid
      cases hobj : req.body.toObj with
      | none => simp [updateOne, hobj]; exact ⟨d, hf, rfl⟩
      | some upd =>
        cases hf' : findOne db oid' with
        | none => simp [updateOne, hobj, hf']; exact ⟨d, hf, rfl⟩
        | some d₀ =>
          have hd₀ : d₀._id = oid' := (findOne_some db oid' d₀ hf').2
          cases hset : applySet upd d₀ with
          | error e => simp [updateOne, hobj, hf', hset]; exact ⟨d, hf, rfl⟩
          | ok d₁ =>
            by_cases he : d₁ = d₀
            · simp [updateOne, hobj, hf', hset, he]; exact ⟨d, hf, rfl⟩
            · simp only [updateOne, hobj, hf', hset, he, if_false]
              have hone : (1 : Nat) = 0 ↔ False := by simp
              simp only [hone, if_false]
              by_cases ho : oid = oid'
              · subst ho
                have hdd : d₀ = d := by rw [hf] at hf'; cases hf'; rfl
                subst hdd
                have hget := hs hid
                have hl : upd.lookup "createdAt" = none := by
                  cases hb : req.body with
                  | obj fields =>
                    rw [hb] at hget hobj
                    simp only [Value.toObj, Option.some.injEq] at hobj
                    rw [← hobj]
                    exact hget
                  | _ => rw [hb] at hobj; cases hobj
                have hk := applySet_keeps upd d₀ d₁ "createdAt" hset hl (by decide)
                exact ⟨d₁, findOne_replaceOne_self db oid d₀ d₁ hf (by rw [hk.1, hd₀]), hk.2⟩
              · have hid₁ : d₁._id = oid' := by
                  unfold applySet at hset
                  split at hset
                  · split at hset
                    · cases hset; exact hd₀
                    · cases hset
                  · cases hset; exact hd₀
                exact ⟨d, by rw [findOne_replaceOne_ne db oid oid' d₁ ho hid₁]; exact hf, rfl⟩

/-- One spared call keeps the product and its creation timestamp. -/
theorem handle_keeps (env : Env) (c : Call) (db : Collection) (oid : ObjectId) (d : Doc)
    (hf : findOne db oid = some d) (hs : Spares env oid c) :
    ∃ d', findOne (handle env c.amb c.route c.req db).2 oid = some d' ∧
      d'.fields.lookup "createdAt" = d.fields.lookup "createdAt" := by
  cases hr : c.route with
  | postLogin => exact ⟨d, by simp only [handle]; rw [login_db]; exact hf, rfl⟩
  | getVerify =>
    refine ⟨d, ?_, rfl⟩
    rcases guarded_cases env c.amb verifyHandler c.req db with h | ⟨_, user, h⟩
    · simp only [handle]; rw [h]; exact hf
    · simp only [handle]; rw [h]; exact hf
  | getProducts =>
    refine ⟨d, ?_, rfl⟩
    simp only [handle, getProducts]
    split
    · split
      · exact hf
      · split
        · exact hf
        · split <;> exact hf
    · exact hf
  | postProducts =>
    refine ⟨d, ?_, rfl⟩
    rcases guarded_cases env c.amb (createProduct env c.amb) c.req db with h | ⟨_, user, h⟩
    · simp only [handle]; rw [h]; exact hf
    · simp only [handle]; rw [h]
      exact createProduct_keeps env c.amb _ db oid d hf
  | putProduct =>
    simp only [handle]
    exact updateProduct_keeps c.req db oid d hf (fun hid => ((hs hid).2 hr).1)
  | deleteProduct =>
    refine ⟨d, ?_, rfl⟩
    rcases guarded_cases env c.amb deleteProduct c.req db with h | ⟨hauth, user, h⟩
    · simp only [handle]; rw [h]; exact hf
    · simp only [handle]; rw [h]
      exact deleteProduct_keeps _ db oid d hf (fun hid => (hs hid).1 hr hauth)

/-- C9, as stated, fails: a product is created with `createdAt` stamped 1000;
an update of it with the body `{ createdAt: "yesterday" }`, in a sequence
without any delete, leaves it with `createdAt` equal to that string. -/
theorem update_overwrites_createdAt :
    (∀ c ∈ overwriteCalls, c.route ≠ .deleteProduct) ∧
    (findOne (run sampleEnv [] (overwriteCalls.take 1)) ⟨77⟩).map Doc.createdAt
      = some (.date 1000) ∧
    (findOne (run sampleEnv [] overwriteCalls) ⟨77⟩).map Doc.createdAt
      = some (.str "yesterday") := by
  decide

/-- C9, amended: over every sequence of requests in which no authenticated
delete is addressed to the product and no update addressed to it has a
`createdAt` key in its body (update bodies having plain field names), the
product stays in the collection with the `createdAt` it had; in particular,
when the sequence follows the product's creation, with the time stamped by
the create handler. -/
theorem createdAt_kept (env : Env) (calls : List Call) (oid : ObjectId)
    (hs : ∀ c ∈ calls, Spares env oid c) :
    (∀ db d, findOne db oid = some d →
      ∃ d', findOne (run env db calls) oid = some d' ∧
        d'.fields.lookup "createdAt" = d.fields.lookup "createdAt") ∧
    (∀ db create, create.route = .postProducts →
      Authenticated env create.amb create.req →
      meetsSchema env.isUrl create.req.body = true →
      create.amb.generatedId ∉ ids db → oid = create.amb.generatedId →
      ∃ d', findOne (run env db (create :: calls)) oid = some d' ∧
        d'.fields.lookup "createdAt" = some (.date create.amb.createdDate)) := by
  have main : ∀ db d, findOne db oid = some d →
      ∃ d', findOne (run env db calls) oid = some d' ∧
        d'.fields.lookup "createdAt" = d.fields.lookup "createdAt" := by
    induction calls with
    | nil => intro db d hf; exact ⟨d, hf, rfl⟩
    | cons c rest ih =>
      intro db d hf
      obtain ⟨d₁, hf₁, hc₁⟩ := handle_keeps env c db oid d hf (hs c (by simp))
      obtain ⟨d₂, hf₂, hc₂⟩ := ih (fun c' hc' => hs c' (by simp [hc'])) _ d₁ hf₁
      exact ⟨d₂, hf₂, by rw [hc₂, hc₁]⟩
  refine ⟨main, ?_⟩
  intro db create hr hauth hok hfresh hoid
  obtain ⟨t, p, i, a, -, -, -, -, hh⟩ :=
    postProducts_valid env create.amb create.req db hauth hok hfresh
  have hstep : (handle env create.amb create.route create.req db).2
      = db ++ [⟨create.amb.generatedId,
          [("title", t), ("price", p), ("imageUrl", i), ("amazonUrl", a),
            ("createdAt", .date create.amb.createdDate),
            ("updatedAt", .date create.amb.updatedDate)]⟩] := by
    rw [hr, hh]
  have hnew := findOne_append_new db
    ⟨create.amb.generatedId,
      [("title", t), ("price", p), ("imageUrl", i), ("amazonUrl", a),
        ("createdAt", .date create.amb.createdDate),
        ("updatedAt", .date create.amb.updatedDate)]⟩ hfresh
  obtain ⟨d', hf', hc'⟩ := main _ _ (by rw [hoid]; exact hnew)
  refine ⟨d', ?_, ?_⟩
  · show findOne (run env (handle env create.amb create.route create.req db).2 calls) oid
      = some d'
    rw [hstep]
    exact hf'
  · rw [hc']
    show List.lookup "createdAt" [("title", t), ("price", p), ("imageUrl", i),
      ("amazonUrl", a), ("createdAt", .date create.amb.createdDate),
      ("updatedAt", .date create.amb.updatedDate)] = some (.date create.amb.createdDate)
    rw [lookup_cons_ne _ _ _ _ (by decide), lookup_cons_ne _ _ _ _ (by decide),
      lookup_cons_ne _ _ _ _ (by decide), lookup_cons_ne _ _ _ _ (by decide),
      lookup_cons_self]

/-- C9 amended, at a sample: product 2 keeps its `createdAt` over a retitling
update, a failed login and a delete of another product. -/
theorem createdAt_kept_witness :
    ∃ d', findOne (run sampleEnv sampleDb
        [⟨.putProduct, sampleAmb,
            putReq "000000000000000000000002" (.obj (.cons "title" (.str "New") .nil))⟩,
          ⟨.postLogin, sampleAmb, bodyReq (.obj .nil)⟩,
          ⟨.deleteProduct, sampleAmb, adminReq (.obj .nil) "000000000000000000000001"⟩])
        ⟨2⟩ = some d' ∧
      d'.fields.lookup "createdAt"
        = (Doc.fields ⟨⟨2⟩, [("title", .str "B"), ("createdAt", .date 30)]⟩).lookup
            "createdAt" :=
  (createdAt_kept sampleEnv
    [⟨.putProduct, sampleAmb,
        putReq "000000000000000000000002" (.obj (.cons "title" (.str "New") .nil))⟩,
      ⟨.postLogin, sampleAmb, bodyReq (.obj .nil)⟩,
      ⟨.deleteProduct, sampleAmb, adminReq (.obj .nil) "000000000000000000000001"⟩]
    ⟨2⟩ (by decide)).1 sampleDb
    ⟨⟨2⟩, [("title", .str "B"), ("createdAt", .date 30)]⟩ (by decide)

end Backend
